import Mathlib

/-!
Verification development for the uncertainty-model core of the repository
(src/ResNetSPN.py and its experiment callers).  The Python classes are given a
shallow embedding: tensors become lists of rationals (or reals where the code
applies `torch.exp`), a batch is a list of samples, opaque sub-networks (the
residual backbone, the einet circuit head, the linear classifier) become
function-valued fields, and the two-phase trainer becomes a fuel-indexed
recursion that records one trace entry per executed epoch.
-/

/-- Mean of a vector, `torch.mean` of a one-dimensional tensor: sum divided by
length (an empty tensor is the degenerate 0/0 case, which Lean division sends
to 0; no claim is evaluated on an empty feed). -/
def meanV {α : Type} [LinearOrderedField α] (xs : List α) : α :=
  xs.sum / xs.length

/-- Boolean-mask removal used by every forward variant
(src/ResNetSPN.py lines 423-426, 564-567):
`mask = torch.ones_like(x, dtype=torch.bool); mask[:, explaining_vars] = False;
x = x[mask]` keeps exactly the entries whose position is not listed.
`k` is the absolute position of the head of the remaining list. -/
def maskAux (vars : List Nat) : Nat → List ℚ → List ℚ
  | _, [] => []
  | k, a :: rest =>
    if k ∈ vars then maskAux vars (k + 1) rest
    else a :: maskAux vars (k + 1) rest

/-- Masking of the explaining-variable positions of one sample. -/
def maskVars (vars : List Nat) (x : List ℚ) : List ℚ :=
  maskAux vars 0 x

/-- Fancy indexing `x[:, explaining_vars]` for one sample: the values at the
listed indices, in list order. -/
def extractVars (vars : List Nat) (x : List ℚ) : List ℚ :=
  vars.map (fun i => x.getD i 0)

/-- State of `DenseResNetSPN` (src/ResNetSPN.py line 342) restricted to what
`forward`, `activate_einet` and the shared `EinetUtils` mixin read and write.
`hiddenF` is `forward_hidden` (the residual backbone), `einetF` the circuit
head applied to evidence under an optional marginalization scope, `classifierF`
the terminal linear layer of the plain resnet path.  `resnetGrads` and
`einetGrads` are the `requires_grad` flags of the non-einet and einet
parameters.  The class never assigns `marginalized_scopes` in its constructor;
the attribute appears only when `explain_ll` sets it, and `forward` never reads
it — it is carried here to state exactly that. -/
structure DenseSPN where
  explaining_vars : List Nat
  einet_active : Bool
  marginalized_scopes : Option (List Nat)
  hiddenF : List ℚ → List ℚ
  einetF : List ℚ → Option (List Nat) → List ℚ
  classifierF : List ℚ → List ℚ
  resnetGrads : List Bool
  einetGrads : List Bool

/-- `DenseResNetSPN.forward` (lines 420-436) on one sample: extract the
explaining variables, mask them from the backbone input, embed, and route
through the einet when it is active (note the source passes no
marginalization scope here: `return self.einet(hidden)`), else through the
linear classifier. -/
def DenseSPN.forward (m : DenseSPN) (x : List ℚ) : List ℚ :=
  let exp_vars := extractVars m.explaining_vars x
  let inputs := maskVars m.explaining_vars x
  let hidden := m.hiddenF inputs
  if m.einet_active then m.einetF (hidden ++ exp_vars) none
  else m.classifierF hidden

/-- State of `ConvResNetSPN` (line 468), same restriction; `fcF` is the
resnet's terminal `self.fc`. -/
structure ConvSPN where
  explaining_vars : List Nat
  einet_active : Bool
  marginalized_scopes : Option (List Nat)
  hiddenF : List ℚ → List ℚ
  einetF : List ℚ → Option (List Nat) → List ℚ
  fcF : List ℚ → List ℚ
  resnetGrads : List Bool
  einetGrads : List Bool

/-- `ConvResNetSPN._forward_impl` (lines 560-579) on one flattened sample: as
the dense variant, except the einet call receives the model's current scope:
`self.einet(x, marginalized_scopes=self.marginalized_scopes)`.  The reshape to
image shape is a pure change of view and leaves the list of values as is. -/
def ConvSPN.forward (m : ConvSPN) (x : List ℚ) : List ℚ :=
  let exp_vars := extractVars m.explaining_vars x
  let masked := maskVars m.explaining_vars x
  let hidden := m.hiddenF masked
  if m.einet_active then m.einetF (hidden ++ exp_vars) m.marginalized_scopes
  else m.fcF hidden

/-- `DenseResNetSPN.activate_einet` (lines 365-377): set the flag, then set
`requires_grad` of every parameter of the module to `not deactivate_resnet` —
`self.parameters()` includes the einet submodule's parameters — and finally
set every einet parameter back to trainable. -/
def DenseSPN.activate_einet (m : DenseSPN) (deactivate_resnet : Bool) : DenseSPN :=
  let m1 := { m with einet_active := true }
  let m2 := { m1 with
    resnetGrads := m1.resnetGrads.map (fun _ => !deactivate_resnet),
    einetGrads := m1.einetGrads.map (fun _ => !deactivate_resnet) }
  { m2 with einetGrads := m2.einetGrads.map (fun _ => true) }

/-- `ConvResNetSPN.activate_einet` (lines 513-525), textually the same logic. -/
def ConvSPN.activate_einet (m : ConvSPN) (deactivate_resnet : Bool) : ConvSPN :=
  let m1 := { m with einet_active := true }
  let m2 := { m1 with
    resnetGrads := m1.resnetGrads.map (fun _ => !deactivate_resnet),
    einetGrads := m1.einetGrads.map (fun _ => !deactivate_resnet) }
  { m2 with einetGrads := m2.einetGrads.map (fun _ => true) }

/-- `DenseResNetSPN.__init__` (lines 347-363): fresh torch parameters carry
`requires_grad = True`; with `seperate_training` the einet is made inactive and
its parameters frozen, otherwise the einet is active from the start. -/
def mkDenseSPN (explaining_vars : List Nat) (hiddenF : List ℚ → List ℚ)
    (einetF : List ℚ → Option (List Nat) → List ℚ) (classifierF : List ℚ → List ℚ)
    (nResnet nEinet : Nat) (seperate_training : Bool) : DenseSPN :=
  let base : DenseSPN := {
    explaining_vars := explaining_vars
    einet_active := true
    marginalized_scopes := none
    hiddenF := hiddenF
    einetF := einetF
    classifierF := classifierF
    resnetGrads := List.replicate nResnet true
    einetGrads := List.replicate nEinet true }
  if seperate_training then
    { base with einet_active := false, einetGrads := base.einetGrads.map (fun _ => false) }
  else
    { base with einet_active := true }

/-- `ConvResNetSPN.__init__` (lines 473-511), the same separate-training
branch after building the einet. -/
def mkConvSPN (explaining_vars : List Nat) (hiddenF : List ℚ → List ℚ)
    (einetF : List ℚ → Option (List Nat) → List ℚ) (fcF : List ℚ → List ℚ)
    (nResnet nEinet : Nat) (seperate_training : Bool) : ConvSPN :=
  let base : ConvSPN := {
    explaining_vars := explaining_vars
    einet_active := true
    marginalized_scopes := none
    hiddenF := hiddenF
    einetF := einetF
    fcF := fcF
    resnetGrads := List.replicate nResnet true
    einetGrads := List.replicate nEinet true }
  if seperate_training then
    { base with einet_active := false, einetGrads := base.einetGrads.map (fun _ => false) }
  else
    { base with einet_active := true }

lemma map_const_bool (xs : List Bool) (c : Bool) :
    xs.map (fun _ => c) = List.replicate xs.length c := by
  induction xs with
  | nil => rfl
  | cons a rest ih => simp [List.replicate, ih]

lemma maskAux_congr (vars : List Nat) :
    ∀ (x : List ℚ) (k : Nat) (y : List ℚ), x.length = y.length →
    (∀ i, i < x.length → (k + i) ∉ vars → x.getD i 0 = y.getD i 0) →
    maskAux vars k x = maskAux vars k y := by
  intro x
  induction x with
  | nil =>
    intro k y hlen _
    cases y with
    | nil => rfl
    | cons b ys => simp at hlen
  | cons a xs ih =>
    intro k y hlen hagree
    cases y with
    | nil => simp at hlen
    | cons b ys =>
      have hlen2 : xs.length = ys.length := by simpa using hlen
      have htail : ∀ i, i < xs.length → (k + 1 + i) ∉ vars → xs.getD i 0 = ys.getD i 0 := by
        intro i hi hnot
        have h2 : (k + (i + 1)) ∉ vars := by
          have hki : k + (i + 1) = k + 1 + i := by omega
          rw [hki]; exact hnot
        have h3 := hagree (i + 1) (by simpa using Nat.succ_lt_succ hi) h2
        simpa using h3
      by_cases hk : k ∈ vars
      · simp only [maskAux, if_pos hk]
        exact ih (k + 1) ys hlen2 htail
      · simp only [maskAux, if_neg hk]
        have hab : a = b := by
          have h0 := hagree 0 (by simp) (by simpa using hk)
          simpa using h0
        rw [hab, ih (k + 1) ys hlen2 htail]

/-- Consequences claimed by C6, bundled: the masked backbone input, hence the
embedding, agrees between the two samples, and once the extracted
explaining-variable values also agree the whole forward output agrees. -/
def MaskingInvariant (vars : List Nat) (x y : List ℚ) : Prop :=
  maskVars vars x = maskVars vars y ∧
  ∀ (m : DenseSPN) (mc : ConvSPN),
    m.explaining_vars = vars → mc.explaining_vars = vars →
    (m.hiddenF (maskVars vars x) = m.hiddenF (maskVars vars y) ∧
     mc.hiddenF (maskVars vars x) = mc.hiddenF (maskVars vars y) ∧
     (extractVars vars x = extractVars vars y →
       m.forward x = m.forward y ∧ mc.forward x = mc.forward y))

/-- C6: two same-length samples that differ only at explaining-variable
positions produce the identical masked backbone input, hence identical
embeddings, and the forward output can differ only through the extracted
explaining-variable values concatenated for the circuit head. -/
theorem masking_embedding_invariance (vars : List Nat) (x y : List ℚ)
    (hlen : x.length = y.length)
    (hagree : ∀ i, i < x.length → i ∉ vars → x.getD i 0 = y.getD i 0) :
    MaskingInvariant vars x y := by
  have hmask : maskVars vars x = maskVars vars y := by
    apply maskAux_congr vars x 0 y hlen
    intro i hi hnot
    exact hagree i hi (by simpa using hnot)
  refine ⟨hmask, ?_⟩
  intro m mc hm hmc
  refine ⟨by rw [hmask], by rw [hmask], ?_⟩
  intro hev
  constructor
  · simp only [DenseSPN.forward, hm, hmask, hev]
  · simp only [ConvSPN.forward, hmc, hmask, hev]

/-- Witness for C6 at a concrete pair differing only at the explained
position 0. -/
theorem masking_embedding_invariance_witness :
    MaskingInvariant [0] [5, 1] [7, 1] := by
  apply masking_embedding_invariance [0] [5, 1] [7, 1] rfl
  intro i hi hnot
  have hi2 : i < 2 := by simpa using hi
  interval_cases i
  · exact absurd (by simp) hnot
  · rfl

/-- Concrete dense model exhibiting that the dense forward ignores the stored
marginalization scope: its einet output depends on the scope it is passed. -/
def denseScopeProbe : DenseSPN :=
  { explaining_vars := []
    einet_active := true
    marginalized_scopes := some [0]
    hiddenF := fun v => v
    einetF := fun _ s => match s with | none => [0] | some _ => [1]
    classifierF := fun v => v
    resnetGrads := []
    einetGrads := [] }

/-- Counterexample to C5 as stated: with the einet active and the model's
current scope set to `[0]`, `DenseResNetSPN.forward` does not return the
circuit head evaluated under that scope — the dense variant never passes
`self.marginalized_scopes` to the einet. -/
theorem dense_forward_ignores_scope_counterexample :
    DenseSPN.forward denseScopeProbe [] ≠
      denseScopeProbe.einetF
        (denseScopeProbe.hiddenF (maskVars denseScopeProbe.explaining_vars []) ++
          extractVars denseScopeProbe.explaining_vars [])
        denseScopeProbe.marginalized_scopes := by
  decide

/-- C5 amended: the convolutional variant routes through the einet under the
model's current marginalization scope when active and through `self.fc`
otherwise; the dense variant routes through the einet with no scope (its
output is invariant under changes of the stored scope) and through
`self.classifier` otherwise. -/
theorem forward_routing_amended (mc : ConvSPN) (m : DenseSPN) (x : List ℚ)
    (s1 s2 : Option (List Nat)) :
    ConvSPN.forward mc x =
      (if mc.einet_active then
        mc.einetF
          (mc.hiddenF (maskVars mc.explaining_vars x) ++ extractVars mc.explaining_vars x)
          mc.marginalized_scopes
      else mc.fcF (mc.hiddenF (maskVars mc.explaining_vars x))) ∧
    DenseSPN.forward m x =
      (if m.einet_active then
        m.einetF
          (m.hiddenF (maskVars m.explaining_vars x) ++ extractVars m.explaining_vars x)
          none
      else m.classifierF (m.hiddenF (maskVars m.explaining_vars x))) ∧
    DenseSPN.forward { m with marginalized_scopes := s1 } x =
      DenseSPN.forward { m with marginalized_scopes := s2 } x :=
  ⟨rfl, rfl, rfl⟩

/-- C8: after `activate_einet deactivate_resnet` on either variant the einet is
active, every einet parameter is trainable, and every non-einet parameter is
trainable exactly when the backbone was not deactivated. -/
theorem activate_einet_spec (m : DenseSPN) (mc : ConvSPN) (d : Bool) :
    (m.activate_einet d).einet_active = true ∧
    (m.activate_einet d).einetGrads = List.replicate m.einetGrads.length true ∧
    (m.activate_einet d).resnetGrads = List.replicate m.resnetGrads.length (!d) ∧
    (mc.activate_einet d).einet_active = true ∧
    (mc.activate_einet d).einetGrads = List.replicate mc.einetGrads.length true ∧
    (mc.activate_einet d).resnetGrads = List.replicate mc.resnetGrads.length (!d) := by
  refine ⟨rfl, ?_, ?_, rfl, ?_, ?_⟩ <;>
    simp [DenseSPN.activate_einet, ConvSPN.activate_einet, map_const_bool]

/-- C10: constructing either variant with `seperate_training = true` leaves the
einet inactive (so forward routes through the backbone classifier) with every
einet parameter frozen, while `seperate_training = false` activates the einet
from the start. -/
theorem init_seperate_training_spec (ev : List Nat) (hF : List ℚ → List ℚ)
    (eF : List ℚ → Option (List Nat) → List ℚ) (cF fF : List ℚ → List ℚ)
    (nR nE : Nat) (x : List ℚ) :
    (mkDenseSPN ev hF eF cF nR nE true).einet_active = false ∧
    (mkDenseSPN ev hF eF cF nR nE true).einetGrads = List.replicate nE false ∧
    (mkDenseSPN ev hF eF cF nR nE true).forward x = cF (hF (maskVars ev x)) ∧
    (mkDenseSPN ev hF eF cF nR nE false).einet_active = true ∧
    (mkConvSPN ev hF eF fF nR nE true).einet_active = false ∧
    (mkConvSPN ev hF eF fF nR nE true).einetGrads = List.replicate nE false ∧
    (mkConvSPN ev hF eF fF nR nE true).forward x = fF (hF (maskVars ev x)) ∧
    (mkConvSPN ev hF eF fF nR nE false).einet_active = true := by
  refine ⟨rfl, ?_, rfl, rfl, rfl, ?_, rfl, rfl⟩ <;>
    simp [mkDenseSPN, mkConvSPN, map_const_bool]

/-- Per-sample normalization of `eval_dempster_shafer`
(src/ResNetSPN.py lines 225-228): subtract the mean of the log-likelihood
vector, then divide by the maximum absolute deviation.  When that maximum is
zero (a constant vector) the code performs the IEEE division 0/0 and the
result is NaN; the degenerate division is made explicit here as `none`. -/
def dsNormalize {α : Type} [LinearOrderedField α] (lls : List α) : Option (List α) :=
  let m := meanV lls
  let devs := lls.map (fun v => v - m)
  let d := (devs.map (fun v => |v|)).foldr max 0
  if d = 0 then none else some (devs.map (fun v => v / d))

/-- Per-sample uncertainty of `eval_dempster_shafer` (lines 229-231):
`num_classes / (num_classes + sum(exp(normalized)))`, with `expF` the
exponential map the code takes from `torch.exp`. -/
def dsUncertaintySample {α : Type} [LinearOrderedField α] (expF : α → α)
    (num_classes : α) (lls : List α) : Option α :=
  (dsNormalize lls).map (fun ns => num_classes / (num_classes + (ns.map expF).sum))

/-- Counterexample to C4 as stated: on the symmetric two-class vector
`[-1, -1]` the maximum absolute deviation is zero, so the normalization is the
degenerate division-by-zero (NaN in the code) and the per-sample uncertainty is
not the claimed 0.5. -/
theorem dempster_shafer_symmetric_counterexample :
    dsUncertaintySample Real.exp 2 [-1, -1] = none ∧
    dsUncertaintySample Real.exp 2 [-1, -1] ≠ some (1 / 2) := by
  have hm : meanV ([-1, -1] : List ℝ) = -1 := by
    norm_num [meanV]
  have h : dsNormalize ([-1, -1] : List ℝ) = none := by
    simp [dsNormalize, hm]
  exact ⟨by simp [dsUncertaintySample, h], by simp [dsUncertaintySample, h]⟩

/-- C4 amended: whenever the normalization is non-degenerate (the maximum
absolute deviation is nonzero, so `dsNormalize` succeeds), the per-sample
uncertainty `K / (K + Σ exp(normalized))` is defined and lies in (0, 1]; the
symmetric vector `[-1, -1]` is excluded because it is exactly the degenerate
division-by-zero case. -/
theorem dempster_shafer_amended (K : ℝ) (hK : 0 < K) (lls ns : List ℝ)
    (h : dsNormalize lls = some ns) :
    ∃ u : ℝ, dsUncertaintySample Real.exp K lls = some u ∧ 0 < u ∧ u ≤ 1 := by
  have hS : 0 ≤ (ns.map Real.exp).sum := by
    apply List.sum_nonneg
    intro a ha
    obtain ⟨y, _, rfl⟩ := List.mem_map.mp ha
    exact (Real.exp_pos y).le
  refine ⟨K / (K + (ns.map Real.exp).sum), ?_, ?_, ?_⟩
  · simp [dsUncertaintySample, h]
  · exact div_pos hK (by linarith)
  · rw [div_le_one (by linarith)]
    linarith

/-- Witness for the amended C4 at the concrete skewed vector `[-1, -3]`, whose
normalization is `[1, -1]`. -/
theorem dempster_shafer_amended_witness :
    ∃ u : ℝ, dsUncertaintySample Real.exp 2 [-1, -3] = some u ∧ 0 < u ∧ u ≤ 1 :=
  dempster_shafer_amended 2 (by norm_num) [-1, -3] [1, -1] (by
    have hm : meanV ([-1, -3] : List ℝ) = -2 := by
      norm_num [meanV]
    simp [dsNormalize, hm]
    norm_num)

/-- Argument of `torch.mean` as `eval_dempster_shafer` builds it: either a
tensor or a plain Python list of per-batch tensors.  Tensor entries are
Option-valued, `none` standing for a NaN produced by the degenerate
normalization. -/
inductive MeanArg (α : Type) where
  | tensor : List (Option α) → MeanArg α
  | pyList : List (List (Option α)) → MeanArg α

/-- `torch.mean` requires its positional argument to be a tensor; a Python
list raises a TypeError, modelled as the error branch. -/
def torch_mean {α : Type} [LinearOrderedField α] : MeanArg α → Except String (Option α)
  | MeanArg.tensor xs =>
    if xs.all Option.isSome then Except.ok (some (meanV (xs.filterMap id)))
    else Except.ok none
  | MeanArg.pyList _ => Except.error "mean expects a Tensor argument, not a list"

/-- `EinetUtils.eval_dempster_shafer` (lines 207-235) over a feed of batches of
per-sample log-likelihood vectors: the per-batch uncertainty tensors are
appended to a Python list `uncertainties`; with `return_all` that list is
returned, otherwise the list itself is handed to `torch.mean`. -/
def eval_dempster_shafer {α : Type} [LinearOrderedField α] (expF : α → α)
    (num_classes : α) (dl : List (List (List α))) (return_all : Bool) :
    Except String (List (List (Option α)) ⊕ Option α) :=
  let uncertainties :=
    dl.map (fun batch => batch.map (fun lls => dsUncertaintySample expF num_classes lls))
  if return_all then Except.ok (Sum.inl uncertainties)
  else (torch_mean (MeanArg.pyList uncertainties)).map Sum.inr

/-- C9: with `return_all = false` the aggregation hands the Python list of
per-batch tensors to `torch.mean`, which raises; the scalar-mean path never
returns successfully. -/
theorem eval_dempster_shafer_nonscalar {α : Type} [LinearOrderedField α]
    (expF : α → α) (K : α) (dl : List (List (List α))) (h : dl ≠ []) :
    eval_dempster_shafer expF K dl false =
      Except.error "mean expects a Tensor argument, not a list" ∧
    ∀ v, eval_dempster_shafer expF K dl false ≠ Except.ok v := by
  have h1 : eval_dempster_shafer expF K dl false =
      Except.error "mean expects a Tensor argument, not a list" := rfl
  refine ⟨h1, ?_⟩
  intro v hv
  rw [h1] at hv
  exact Except.noConfusion hv

/-- Witness for C9 on a one-batch, one-sample feed. -/
theorem eval_dempster_shafer_nonscalar_witness :
    eval_dempster_shafer (fun v : ℚ => v) 2 [[[0]]] false =
      Except.error "mean expects a Tensor argument, not a list" ∧
    ∀ v, eval_dempster_shafer (fun v : ℚ => v) 2 [[[0]]] false ≠ Except.ok v :=
  eval_dempster_shafer_nonscalar (fun v => v) 2 [[[0]]] (by decide)

/-- `EinetUtils.eval_ll` (lines 160-172) with the conv variant's forward and
`return_all = False`: the per-sample log-likelihood is the mean of the
per-class vector, and the result is the mean over the feed.  The feed is a
list of samples (torch batches concatenate to the same population). -/
def ConvSPN.eval_ll (m : ConvSPN) (dl : List (List ℚ)) : ℚ :=
  meanV (dl.map (fun x => meanV (m.forward x)))

/-- `EinetUtils.explain_ll` (lines 237-250): the default mean log-likelihood is
computed first, then for each explaining variable the scope is set to that
single index and the mean log-likelihood recomputed; the differences are
collected in order and the scope is set to None before returning.  Returns the
explanation list together with the model state on return. -/
def ConvSPN.explain_ll (m : ConvSPN) (dl : List (List ℚ)) : List ℚ × ConvSPN :=
  let ll_default := m.eval_ll dl
  let explanations := m.explaining_vars.map
    (fun i => ll_default - ConvSPN.eval_ll { m with marginalized_scopes := some [i] } dl)
  (explanations, { m with marginalized_scopes := none })

/-- C7: starting from a model with no marginalization scope, `explain_ll`
returns, per explaining variable in order, the unmarginalized mean
log-likelihood minus the mean log-likelihood under the singleton scope of that
variable, and the model's scope is None on return. -/
theorem explain_ll_spec (m : ConvSPN) (dl : List (List ℚ))
    (h : m.marginalized_scopes = none) :
    (m.explain_ll dl).1 = m.explaining_vars.map
      (fun i => ConvSPN.eval_ll { m with marginalized_scopes := none } dl
        - ConvSPN.eval_ll { m with marginalized_scopes := some [i] } dl) ∧
    (m.explain_ll dl).2.marginalized_scopes = none := by
  have hm : { m with marginalized_scopes := none } = m := by
    obtain ⟨ev, ea, ms, hF, eF, fF, rG, eG⟩ := m
    simp only at h
    rw [h]
  exact ⟨by rw [hm]; rfl, rfl⟩

/-- Concrete conv model for the C7 witness: the einet output genuinely depends
on the scope it receives. -/
def convScopeProbe : ConvSPN :=
  { explaining_vars := [0]
    einet_active := true
    marginalized_scopes := none
    hiddenF := fun v => v
    einetF := fun v s => match s with | none => v | some _ => v.map (fun q => q + 1)
    fcF := fun v => v
    resnetGrads := []
    einetGrads := [] }

/-- Witness for C7 on a one-sample feed. -/
theorem explain_ll_spec_witness :
    (convScopeProbe.explain_ll [[3]]).1 = convScopeProbe.explaining_vars.map
      (fun i => ConvSPN.eval_ll { convScopeProbe with marginalized_scopes := none } [[3]]
        - ConvSPN.eval_ll { convScopeProbe with marginalized_scopes := some [i] } [[3]]) ∧
    (convScopeProbe.explain_ll [[3]]).2.marginalized_scopes = none :=
  explain_ll_spec convScopeProbe [[3]] rfl

/-- Early-stopping comparison `val_loss > lowest_val_loss`
(src/ResNetSPN.py lines 64, 118); the best marker starts at `torch.inf`,
modelled as `none`, against which the comparison is always false. -/
def gtLowest (v : ℚ) (lowest : Option ℚ) : Bool :=
  match lowest with
  | none => false
  | some l => decide (l < v)

/-- The record of one executed epoch of a training phase: the validation batch
losses, their accumulated sum, the patience counter (`val_increase`) and best
marker (`lowest_val_loss`) before and after the single epoch-boundary check,
whether a checkpoint was written this epoch, and whether the check broke out
of the epoch loop. -/
structure EpochRec where
  batchLosses : List ℚ
  vloss : ℚ
  cBefore : Nat
  cAfter : Nat
  bestBefore : Option ℚ
  bestAfter : Option ℚ
  wrote : Bool
  broke : Bool
deriving DecidableEq

/-- Outcome of one phase loop: the per-epoch records, the model-plus-optimizer
state after the loop, and the single-slot checkpoint contents. -/
structure PhaseRes (σ : Type) where
  trace : List EpochRec
  state : σ
  slot : Option σ
deriving DecidableEq

/-- One epoch loop of `EinetUtils.start_train` (lines 37-75 for the warmup
phase, 85-129 for the main phase).  `trainE` is one epoch of gradient updates
together with the scheduler step (opaque), `valE` yields the per-batch
validation losses of a state; each epoch accumulates their sum into
`val_loss` and then runs the early-stopping block (lines 64-75 / 118-129)
exactly once: a strictly greater sum increments `val_increase` and breaks out
of the loop once the counter reaches `early_stop`; otherwise the counter is
reset, the best marker updated, and — when a checkpoint directory was given —
the current state saved to the checkpoint slot. -/
def runPhase {σ : Type} (early_stop : Nat) (hasCkpt : Bool)
    (trainE : σ → σ) (valE : σ → List ℚ) :
    Nat → σ → Option σ → Nat → Option ℚ → PhaseRes σ
  | 0, s, slot, _, _ => ⟨[], s, slot⟩
  | n + 1, s, slot, c, best =>
    let s1 := trainE s
    let bl := valE s1
    let v := bl.sum
    if gtLowest v best then
      let c1 := c + 1
      let r : EpochRec := ⟨bl, v, c, c1, best, best, false, decide (early_stop ≤ c1)⟩
      if early_stop ≤ c1 then ⟨[r], s1, slot⟩
      else
        let rest := runPhase early_stop hasCkpt trainE valE n s1 slot c1 best
        ⟨r :: rest.trace, rest.state, rest.slot⟩
    else
      let slot1 := if hasCkpt then some s1 else slot
      let r : EpochRec := ⟨bl, v, c, 0, best, some v, hasCkpt, false⟩
      let rest := runPhase early_stop hasCkpt trainE valE n s1 slot1 0 (some v)
      ⟨r :: rest.trace, rest.state, rest.slot⟩

/-- Phase-end checkpoint restore (lines 77-79 and 130-132): when a checkpoint
directory was supplied, `self.load(checkpoint_dir + "checkpoint.pt")` runs
unconditionally; `torch.load` of a file that was never written raises, which is
the error branch. -/
def phaseLoad {σ : Type} (hasCkpt : Bool) (s : σ) (slot : Option σ) :
    Except Unit (σ × Option σ) :=
  if hasCkpt then
    match slot with
    | some ck => Except.ok (ck, slot)
    | none => Except.error ()
  else Except.ok (s, slot)

/-- Observable outcome of a completed `start_train` run: the two phase traces,
the final state and checkpoint slot, and the Python return value `ret` — the
function body has no return statement, so a run that does not raise returns
None. -/
structure StartTrainRes (σ : Type) where
  wTrace : List EpochRec
  mTrace : List EpochRec
  finalState : σ
  finalSlot : Option σ
  ret : Option ℚ
deriving DecidableEq

/-- `EinetUtils.start_train` (lines 18-132): run the warmup phase from a fresh
counter and an infinite best marker, restore the checkpoint when a directory
was supplied, switch the model with `activate_einet`, run the main phase with
its own fresh counter and best marker, and restore again.  The training and
validation behaviors of the two phases (`trainW`/`valW` with the cross-entropy
loss, `trainM`/`valM` with the hybrid loss) are opaque functions of the
state. -/
def start_train {σ : Type} (early_stop : Nat) (hasCkpt : Bool)
    (warmup_epochs num_epochs : Nat)
    (trainW : σ → σ) (valW : σ → List ℚ) (activateE : σ → σ)
    (trainM : σ → σ) (valM : σ → List ℚ)
    (s0 : σ) (slot0 : Option σ) : Except Unit (StartTrainRes σ) :=
  let w := runPhase early_stop hasCkpt trainW valW warmup_epochs s0 slot0 0 none
  match phaseLoad hasCkpt w.state w.slot with
  | Except.error e => Except.error e
  | Except.ok (s1, slot1) =>
    let s2 := activateE s1
    let m := runPhase early_stop hasCkpt trainM valM num_epochs s2 slot1 0 none
    match phaseLoad hasCkpt m.state m.slot with
    | Except.error e => Except.error e
    | Except.ok (s3, slot3) => Except.ok ⟨w.trace, m.trace, s3, slot3, none⟩

/-- What C1 claims of one executed epoch: the compared value is the sum of the
epoch's validation batch losses, a strictly greater sum increments the counter,
leaves the best marker alone, writes nothing, and breaks exactly when the
counter reaches the limit; a not-greater sum resets the counter, updates the
best marker, writes a checkpoint exactly when a directory was supplied, and
never breaks. -/
def EpochOk (early_stop : Nat) (hasCkpt : Bool) (r : EpochRec) : Prop :=
  r.vloss = r.batchLosses.sum ∧
  (gtLowest r.vloss r.bestBefore = true →
    r.cAfter = r.cBefore + 1 ∧ r.bestAfter = r.bestBefore ∧ r.wrote = false ∧
    (r.broke = true ↔ early_stop ≤ r.cAfter)) ∧
  (gtLowest r.vloss r.bestBefore = false →
    r.cAfter = 0 ∧ r.bestAfter = some r.vloss ∧ r.wrote = hasCkpt ∧
    r.broke = false)

/-- The epoch records of a phase chain correctly: each record starts from the
counter and best marker the previous record ended with, satisfies `EpochOk`,
and a breaking record is the last one. -/
def ChainOk (early_stop : Nat) (hasCkpt : Bool) :
    Nat → Option ℚ → List EpochRec → Prop
  | _, _, [] => True
  | c, best, r :: rest =>
    r.cBefore = c ∧ r.bestBefore = best ∧ EpochOk early_stop hasCkpt r ∧
    (r.broke = true → rest = []) ∧
    (r.broke = false → ChainOk early_stop hasCkpt r.cAfter r.bestAfter rest)

/-- The whole of what C1 claims of one phase: the trace chains from a fresh
counter and an infinite best marker, runs the check once per executed epoch, at
most `budget` epochs execute, the loop ends before the budget only by a break,
and any break happens exactly when the counter reaches the early-stop limit. -/
def PhaseSpec (early_stop : Nat) (hasCkpt : Bool) (budget : Nat)
    (tr : List EpochRec) : Prop :=
  ChainOk early_stop hasCkpt 0 none tr ∧
  tr.length ≤ budget ∧
  (tr.length < budget → ∃ r, tr.getLast? = some r ∧ r.broke = true) ∧
  (∀ r ∈ tr, r.broke = true → r.cAfter = early_stop)

lemma runPhase_spec {σ : Type} (es : Nat) (ck : Bool) (tE : σ → σ)
    (vE : σ → List ℚ) :
    ∀ (n : Nat) (s : σ) (slot : Option σ) (c : Nat) (best : Option ℚ), c < es →
      ChainOk es ck c best (runPhase es ck tE vE n s slot c best).trace ∧
      (runPhase es ck tE vE n s slot c best).trace.length ≤ n ∧
      ((runPhase es ck tE vE n s slot c best).trace.length < n →
        ∃ r, (runPhase es ck tE vE n s slot c best).trace.getLast? = some r ∧
          r.broke = true) ∧
      (∀ r ∈ (runPhase es ck tE vE n s slot c best).trace,
        r.broke = true → r.cAfter = es) := by
  intro n
  induction n with
  | zero =>
    intro s slot c best _
    simp [runPhase, ChainOk]
  | succ n ih =>
    intro s slot c best hc
    by_cases hg : gtLowest ((vE (tE s)).sum) best = true
    · by_cases hb : es ≤ c + 1
      · have hrun : runPhase es ck tE vE (n + 1) s slot c best =
            ⟨[⟨vE (tE s), (vE (tE s)).sum, c, c + 1, best, best, false, true⟩],
              tE s, slot⟩ := by
          simp [runPhase, hg, hb]
        rw [hrun]
        refine ⟨?_, by simp, ?_, ?_⟩
        · exact ⟨rfl, rfl,
            ⟨rfl,
              fun _ => ⟨rfl, rfl, rfl, ⟨fun _ => hb, fun _ => rfl⟩⟩,
              fun hfalse => absurd hfalse (by simp [hg])⟩,
            fun _ => rfl, fun _ => trivial⟩
        · intro _
          exact ⟨⟨vE (tE s), (vE (tE s)).sum, c, c + 1, best, best, false, true⟩,
            by simp, rfl⟩
        · intro r hr hbr
          simp only [List.mem_singleton] at hr
          subst hr
          show c + 1 = es
          omega
      · have hrun : runPhase es ck tE vE (n + 1) s slot c best =
            ⟨⟨vE (tE s), (vE (tE s)).sum, c, c + 1, best, best, false, false⟩ ::
              (runPhase es ck tE vE n (tE s) slot (c + 1) best).trace,
              (runPhase es ck tE vE n (tE s) slot (c + 1) best).state,
              (runPhase es ck tE vE n (tE s) slot (c + 1) best).slot⟩ := by
          simp [runPhase, hg, hb]
        obtain ⟨ih1, ih2, ih3, ih4⟩ := ih (tE s) slot (c + 1) best (by omega)
        rw [hrun]
        refine ⟨?_, by simpa using Nat.succ_le_succ ih2, ?_, ?_⟩
        · exact ⟨rfl, rfl,
            ⟨rfl,
              fun _ => ⟨rfl, rfl, rfl,
                ⟨fun hf => Bool.noConfusion hf, fun hle => absurd hle hb⟩⟩,
              fun hfalse => absurd hfalse (by simp [hg])⟩,
            fun hbr => Bool.noConfusion hbr, fun _ => ih1⟩
        · intro hlt
          have hlt2 :
              (runPhase es ck tE vE n (tE s) slot (c + 1) best).trace.length < n := by
            simp only [List.length_cons] at hlt
            omega
          obtain ⟨r2, hr1, hr2⟩ := ih3 hlt2
          cases hrt : (runPhase es ck tE vE n (tE s) slot (c + 1) best).trace with
          | nil =>
            rw [hrt] at hr1
            simp at hr1
          | cons b l =>
            rw [hrt] at hr1
            refine ⟨r2, ?_, hr2⟩
            simpa [List.getLast?_cons_cons] using hr1
        · intro r2 hr2 hbr2
          rcases List.mem_cons.mp hr2 with h1 | h2
          · subst h1
            exact Bool.noConfusion hbr2
          · exact ih4 r2 h2 hbr2
    · have hg2 : gtLowest ((vE (tE s)).sum) best = false := by
        cases hgl : gtLowest ((vE (tE s)).sum) best
        · rfl
        · exact absurd hgl hg
      have hrun : runPhase es ck tE vE (n + 1) s slot c best =
          ⟨⟨vE (tE s), (vE (tE s)).sum, c, 0, best, some ((vE (tE s)).sum), ck,
              false⟩ ::
            (runPhase es ck tE vE n (tE s) (if ck then some (tE s) else slot) 0
              (some ((vE (tE s)).sum))).trace,
            (runPhase es ck tE vE n (tE s) (if ck then some (tE s) else slot) 0
              (some ((vE (tE s)).sum))).state,
            (runPhase es ck tE vE n (tE s) (if ck then some (tE s) else slot) 0
              (some ((vE (tE s)).sum))).slot⟩ := by
        simp [runPhase, hg2]
      obtain ⟨ih1, ih2, ih3, ih4⟩ := ih (tE s) (if ck then some (tE s) else slot) 0
        (some ((vE (tE s)).sum)) (by omega)
      rw [hrun]
      refine ⟨?_, by simpa using Nat.succ_le_succ ih2, ?_, ?_⟩
      · exact ⟨rfl, rfl,
          ⟨rfl,
            fun htrue => absurd htrue (by simp [hg2]),
            fun _ => ⟨rfl, rfl, rfl, rfl⟩⟩,
          fun hbr => Bool.noConfusion hbr, fun _ => ih1⟩
      · intro hlt
        have hlt2 : (runPhase es ck tE vE n (tE s)
            (if ck then some (tE s) else slot) 0
            (some ((vE (tE s)).sum))).trace.length < n := by
          simp only [List.length_cons] at hlt
          omega
        obtain ⟨r2, hr1, hr2⟩ := ih3 hlt2
        cases hrt : (runPhase es ck tE vE n (tE s)
            (if ck then some (tE s) else slot) 0
            (some ((vE (tE s)).sum))).trace with
        | nil =>
          rw [hrt] at hr1
          simp at hr1
        | cons b l =>
          rw [hrt] at hr1
          refine ⟨r2, ?_, hr2⟩
          simpa [List.getLast?_cons_cons] using hr1
      · intro r2 hr2 hbr2
        rcases List.mem_cons.mp hr2 with h1 | h2
        · subst h1
          exact Bool.noConfusion hbr2
        · exact ih4 r2 h2 hbr2

/-- C1: in each training phase of `start_train` the early-stopping/checkpoint
logic runs exactly once per executed epoch, on the summed validation loss of
that epoch: a strictly greater total increments the patience counter (and
breaks exactly when it reaches `early_stop`), a not-greater total resets the
counter, updates the best marker and writes a checkpoint when a directory was
supplied, and the epoch loop terminates exactly at the epoch whose counter
reaches the limit (`PhaseSpec`); this holds for the warmup phase, for the main
phase from any intermediate state, and the traces of any completed
`start_train` run are exactly such phase traces. -/
theorem start_train_early_stopping {σ : Type} (es : Nat) (hes : 1 ≤ es)
    (ck : Bool) (wn mn : Nat) (trainW : σ → σ) (valW : σ → List ℚ)
    (activateE : σ → σ) (trainM : σ → σ) (valM : σ → List ℚ)
    (s0 : σ) (slot0 : Option σ) :
    PhaseSpec es ck wn (runPhase es ck trainW valW wn s0 slot0 0 none).trace ∧
    (∀ (s1 : σ) (slot1 : Option σ),
      PhaseSpec es ck mn (runPhase es ck trainM valM mn s1 slot1 0 none).trace) ∧
    (∀ res, start_train es ck wn mn trainW valW activateE trainM valM s0 slot0 =
        Except.ok res →
      res.wTrace = (runPhase es ck trainW valW wn s0 slot0 0 none).trace ∧
      ∃ (s2 : σ) (slot1 : Option σ),
        res.mTrace = (runPhase es ck trainM valM mn s2 slot1 0 none).trace) := by
  have hes0 : 0 < es := hes
  refine ⟨?_, ?_, ?_⟩
  · obtain ⟨h1, h2, h3, h4⟩ := runPhase_spec es ck trainW valW wn s0 slot0 0 none hes0
    exact ⟨h1, h2, h3, h4⟩
  · intro s1 slot1
    obtain ⟨h1, h2, h3, h4⟩ := runPhase_spec es ck trainM valM mn s1 slot1 0 none hes0
    exact ⟨h1, h2, h3, h4⟩
  · intro res hres
    simp only [start_train] at hres
    split at hres
    · exact Except.noConfusion hres
    · split at hres
      · exact Except.noConfusion hres
      · injection hres with h
        subst h
        exact ⟨rfl, _, _, rfl⟩

/-- Witness for C1 at a concrete instantiation. -/
theorem start_train_early_stopping_witness :
    PhaseSpec 1 true 0
      (runPhase 1 true (fun s : ℚ => s) (fun _ => []) 0 0 none 0 none).trace ∧
    (∀ (s1 : ℚ) (slot1 : Option ℚ),
      PhaseSpec 1 true 0
        (runPhase 1 true (fun s : ℚ => s) (fun _ => []) 0 s1 slot1 0 none).trace) ∧
    (∀ res, start_train 1 true 0 0 (fun s : ℚ => s) (fun _ => []) (fun s => s)
        (fun s : ℚ => s) (fun _ => []) 0 none = Except.ok res →
      res.wTrace =
        (runPhase 1 true (fun s : ℚ => s) (fun _ => []) 0 0 none 0 none).trace ∧
      ∃ (s2 : ℚ) (slot1 : Option ℚ),
        res.mTrace =
          (runPhase 1 true (fun s : ℚ => s) (fun _ => []) 0 s2 slot1 0 none).trace) :=
  start_train_early_stopping 1 (by decide) true 0 0 (fun s => s) (fun _ => [])
    (fun s => s) (fun s => s) (fun _ => []) 0 none

/-- C2 against the code: at the two-moons zero-epoch scenario
(`warmup_epochs = 0`, `num_epochs = 0`, no checkpoint directory) `start_train`
completes without computing any validation loss and its return value is None —
the function body has no return statement — so the caller
(`start_two_moons_run`, src/two_moons_experiment.py lines 171-182) receives
None in `lowest_val_loss` rather than any validation loss. -/
theorem start_train_zero_epochs_returns_none :
    start_train 3 false 0 0 (fun s : ℚ => s) (fun _ => [])
      (fun s => s) (fun s => s) (fun _ => []) 0 none =
      Except.ok ⟨[], [], 0, none, none⟩ := rfl

/-- Counterexample to C3 as stated: a zero-epoch warmup phase with a
checkpoint directory supplied is not a no-op.  With a stale checkpoint in the
slot the phase-end load replaces the in-memory state 0 by the slot contents 7;
with an empty slot the load of the never-written file raises. -/
theorem zero_epoch_phase_restore_counterexample :
    start_train 3 true 0 0 (fun s : ℚ => s + 100) (fun _ => [])
      (fun s => s) (fun s => s + 100) (fun _ => []) 0 (some 7) =
      Except.ok ⟨[], [], 7, some 7, none⟩ ∧
    (7 : ℚ) ≠ 0 ∧
    start_train 3 true 0 0 (fun s : ℚ => s + 100) (fun _ => [])
      (fun s => s) (fun s => s + 100) (fun _ => []) 0 none =
      Except.error () := by
  refine ⟨rfl, by norm_num, rfl⟩

/-- C3 amended: a zero-epoch phase runs no training and writes no checkpoint,
and with no checkpoint directory it is a complete no-op (a whole zero-epoch
`start_train` only applies the phase transition `activate_einet`); but when a
checkpoint directory is supplied the phase-end restore still executes — it
loads whatever the slot holds, and fails when nothing was ever written. -/
theorem zero_epoch_phase_amended {σ : Type} (es : Nat) (ck : Bool)
    (tE : σ → σ) (vE : σ → List ℚ) (aE : σ → σ) (s : σ) (slot : Option σ)
    (cv : σ) :
    runPhase es ck tE vE 0 s slot 0 none = ⟨[], s, slot⟩ ∧
    phaseLoad false s slot = Except.ok (s, slot) ∧
    phaseLoad true s (some cv) = Except.ok (cv, some cv) ∧
    phaseLoad true s (none : Option σ) = Except.error () ∧
    start_train es false 0 0 tE vE aE tE vE s slot =
      Except.ok ⟨[], [], aE s, slot, none⟩ :=
  ⟨rfl, rfl, rfl, rfl, rfl⟩
